import Mathlib

/-! USART ISO7816 example (`examples/usart_iso7816/main.c`).

A shallow embedding of the example program: its constants and test commands,
the session configuration, the push-button handling, the command menu and
`main`.  Calls into drivers whose code is not part of the example are
recorded, in program order, as a trace of `Call` values; what such a driver
returns is an input of the model.
-/

namespace UsartIso7816

/-! ## Constants of `main.c` -/

/-- Maximum number of handled led. -/
def MAX_LEDS : Nat := 3

/-- Maximum size in bytes of the smartcard answer to a command. -/
def MAX_ANSWER_SIZE : Nat := 10

/-- Maximum ATR size in bytes. -/
def MAX_ATR_SIZE : Nat := 55

/-- Baudrate of the ISO7816 mode. -/
def ISO7816_BAUDRATE : Nat := 9600

/-- Value of the FI_DI_RATIO field. -/
def ISO7816_FI_DI : Nat := 372

/-- LED0 blink time in ms. -/
def BLINK_PERIOD : Nat := 1000

/-- Test command #1. -/
def testCommand1 : List Nat := [0x00, 0x10, 0x00, 0x00]

/-- Test command #2. -/
def testCommand2 : List Nat := [0x00, 0x20, 0x00, 0x00, 0x02]

/-- Test command #3. -/
def testCommand3 : List Nat := [0x00, 0x30, 0x00, 0x00, 0x02, 0x0A, 0x0B]

/-- The test commands of the example, in menu order. -/
def testCommands : List (List Nat) := [testCommand1, testCommand2, testCommand3]

/-! ## Machine integers -/

/-- Conversion of a C `int` value to `uint8_t`. -/
def toUint8 (z : Int) : Nat := (z % 256).toNat

/-- The C expression `~x` for a `uint8_t` operand, stored back into a
`uint8_t`: the operand is promoted to `int`, complemented (`-x - 1`) and
truncated. -/
def bitNot8 (x : Nat) : Nat := toUint8 (-(x : Int) - 1)

/-! ## Data of the drivers' interfaces -/

/-- A pin description `struct _pin`, with the four fields the initialisers of
`main.c` give (group, mask, type, attribute). -/
structure Pin where
  group : Nat
  mask : Nat
  pinType : Nat
  pinAttribute : Nat
deriving DecidableEq, Repr, Inhabited

/-- The session options `struct _iso7816_opt`. -/
structure IsoOpt where
  protocol_type : Nat
  clock_sel : Nat
  char_length : Nat
  sync : Nat
  parity_type : Nat
  num_stop_bits : Nat
  bit_order : Nat
  inhibit_nack : Nat
  dis_suc_nack : Nat
  max_iterations : Nat
  iso7816_hz : Nat
  fidi_ratio : Nat
  time_guard : Nat
deriving DecidableEq, Repr

/-- Constants that `main.c` takes from the board and chip headers. -/
structure Board where
  SOFTPACK_VERSION : String
  BOARD_NAME : String
  compileDate : String
  compileTime : String
  CONSOLE_BAUDRATE : Nat
  LED_GREEN : Nat
  LED_BLUE : Nat
  PINS_PUSHBUTTONS : List Pin
  CONFIG_HAVE_PMIC_ACT8945A : Bool
  ACT8945A_PINS : List Pin
  PIO_GROUP_B : Nat
  PIO_PB28C_FLEXCOM0_IO0 : Nat
  PIO_PB30C_FLEXCOM0_IO2 : Nat
  PIO_PERIPH_C : Nat
  PIO_DEFAULT : Nat
  US_MR_USART_MODE_IS07816_T_0 : Nat
  US_MR_USCLKS_MCK : Nat
  US_MR_CHRL_8_BIT : Nat
  US_MR_PAR_EVEN : Nat
  US_MR_NBSTOP_2_BIT : Nat

/-- The pin arrays of `main.c` a pointer can point into. -/
inductive PinArray where
  | act8945a_pins
  | button_pins
  | pins_com2
deriving DecidableEq, Repr

/-- A `const struct _pin *`: an array and an element index. -/
structure PinPtr where
  array : PinArray
  index : Nat
deriving DecidableEq, Repr

/-- An argument of `printf`. -/
inductive PfArg where
  | int (n : Nat)
  | str (s : String)
deriving DecidableEq, Repr

/-- The calls `main.c` makes to code outside of it, and the accesses to its
buffers that matter for bounds. -/
inductive Call where
  | wdt_disable
  | pio_reset_all_it
  | console_configure (baudrate : Nat)
  | console_clear_screen
  | console_reset_cursor
  | printf (fmt : String) (args : List PfArg)
  | timer_configure (period : Nat)
  | timer_wait (ms : Nat)
  | act8945a_configure (ok : Bool)
  | act8945a_set_regulator_voltage (reg : Nat) (mv : Nat)
  | act8945a_enable_regulator (reg : Nat) (enable : Bool)
  | led_configure (led : Nat)
  | led_set (led : Nat)
  | led_clear (led : Nat)
  | store_led_status (led : Nat) (value : Bool)
  | pio_configure (pins : PinPtr) (size : Nat)
  | pio_set_debounce_filter (pin : PinPtr) (cutoff : Nat)
  | pio_configure_it (pin : PinPtr)
  | pio_add_handler_to_group (group : Nat) (mask : Nat)
  | pio_enable_it (pin : PinPtr)
  | iso7816_init (opt : IsoOpt)
  | iso7816_warm_reset
  | iso7816_get_data_block_ATR (stored : List Nat) (size : Nat)
  | iso7816_decode_ATR (atr : List Nat)
  | console_get_char (c : Nat)
  | iso7816_xfr_block_TPDU_T0 (cmd : List Nat) (wLength : Nat) (ret : Nat)
  | load_pMessage (i : Nat)
  | store_Atr (i : Nat)
  | load_Atr (i : Nat)
deriving DecidableEq, Repr

/-! ## Internal variables -/

/-- The session options `iso7816_opt`.  The product for `iso7816_hz` is
computed in `int` and stored in a 32-bit field. -/
def iso7816_opt (b : Board) : IsoOpt where
  protocol_type := b.US_MR_USART_MODE_IS07816_T_0
  clock_sel := b.US_MR_USCLKS_MCK
  char_length := b.US_MR_CHRL_8_BIT
  sync := 0
  parity_type := b.US_MR_PAR_EVEN
  num_stop_bits := b.US_MR_NBSTOP_2_BIT
  bit_order := 0
  inhibit_nack := 0
  dis_suc_nack := 0
  max_iterations := 3
  iso7816_hz := (ISO7816_BAUDRATE * ISO7816_FI_DI) % 2 ^ 32
  fidi_ratio := ISO7816_FI_DI
  time_guard := 5

/-- The pins `pins_com2` (`PIN_COM2_ISO7816`). -/
def pins_com2 (b : Board) : List Pin :=
  [ { group := b.PIO_GROUP_B, mask := b.PIO_PB28C_FLEXCOM0_IO0,
      pinType := b.PIO_PERIPH_C, pinAttribute := b.PIO_DEFAULT },
    { group := b.PIO_GROUP_B, mask := b.PIO_PB30C_FLEXCOM0_IO2,
      pinType := b.PIO_PERIPH_C, pinAttribute := b.PIO_DEFAULT } ]

/-! ## Leds and buttons -/

/-- The function `_configure_leds`. -/
def _configure_leds : List Call :=
  (List.range MAX_LEDS).flatMap fun i => [Call.led_configure i, Call.store_led_status i false]

/-- The function `process_button_evt`: the value of `smartcard` before the
call gives the message and the value after it; the argument `bt` is not
used. -/
def process_button_evt (_bt : Nat) (smartcard : Nat) : List Call × Nat :=
  (if smartcard = 0 then [Call.printf "-I- Smartcard inserted\n\r" []]
   else [Call.printf "-I- Smartcard removed\n\r" []],
   bitNot8 smartcard)

/-- The function `push_button_handler`: every button whose mask is in `status`
is one button event, with the index of the button as 8-bit argument. -/
def push_button_handler (button_pins : List Pin) (_mask : Nat) (status : Nat)
    (smartcard : Nat) : List Call × Nat :=
  (List.range button_pins.length).foldl
    (fun acc i =>
      if status &&& (button_pins.getD i default).mask ≠ 0 then
        ((acc.1 ++ (process_button_evt (i % 256) acc.2).1),
         (process_button_evt (i % 256) acc.2).2)
      else acc)
    ([], smartcard)

/-- The value of `smartcard` after calls of `process_button_evt` with the
arguments `bts`, in order, from the value `s`. -/
def smartcardFrom (s : Nat) (bts : List Nat) : Nat :=
  bts.foldl (fun v bt => (process_button_evt bt v).2) s

/-- The value of `smartcard` after calls of `process_button_evt` with the
arguments `bts`, from its initial value 0. -/
def smartcardAfter (bts : List Nat) : Nat := smartcardFrom 0 bts

/-- What the call `process_button_evt(bt)` prints when it follows the calls
with the arguments `bts`. -/
def buttonReport (bts : List Nat) (bt : Nat) : List Call :=
  (process_button_evt bt (smartcardAfter bts)).1

/-- One pass of the loop body of `_configure_buttons`, at index `i`.  The
first four calls receive `&button_pins[i]` or the fields of `button_pins[i]`
(the handler `push_button_handler` and the `NULL` argument are left out of
the record); `pio_enable_it` receives `button_pins`, the address of the first
element. -/
def configureButton (button_pins : List Pin) (i : Nat) : List Call :=
  [ Call.pio_configure ⟨PinArray.button_pins, i⟩ 1,
    Call.pio_set_debounce_filter ⟨PinArray.button_pins, i⟩ 10,
    Call.pio_configure_it ⟨PinArray.button_pins, i⟩,
    Call.pio_add_handler_to_group ((button_pins.getD i default).group)
      ((button_pins.getD i default).mask),
    Call.pio_enable_it ⟨PinArray.button_pins, 0⟩ ]

/-- The function `_configure_buttons`. -/
def _configure_buttons (button_pins : List Pin) : List Call :=
  (List.range button_pins.length).flatMap (configureButton button_pins)

/-! ## The command menu -/

/-- The smartcard driver behind `iso7816_xfr_block_TPDU_T0`, as `main.c` sees
it: from the driver's state, the command, the answer buffer and the length
passed, it gives the new state, the answer buffer after the call and the
returned size. -/
abbrev Xfr (σ : Type) : Type := σ → List Nat → List Nat → Nat → σ × List Nat × Nat

/-- The variables of `_send_receive_commands` that live across iterations. -/
structure MenuState (σ : Type) where
  drv : σ
  pMessage : List Nat
  ucKey : Nat

/-- The loop `for (i = 0; i < sizeof(cmd); i++) printf(fmt, cmd[i])`. -/
def printCommand (fmt : String) (cmd : List Nat) : List Call :=
  cmd.map fun b => Call.printf fmt [PfArg.int b]

/-- The branch of the menu that sends `cmd`: the command is printed and handed
to the driver with `sizeof(cmd)`; the returned size is stored in the 8-bit
`ucSize`. -/
def sendCommand {σ : Type} (xfr : Xfr σ) (st : MenuState σ) (cmd : List Nat) :
    MenuState σ × Nat × List Call :=
  let r := xfr st.drv cmd st.pMessage cmd.length
  ({ st with drv := r.1, pMessage := r.2.1 }, r.2.2 % 256,
   [Call.printf "\n\r-I- Sending command " []] ++ printCommand "0x%02X " cmd ++
   [Call.printf "...\n\r" [], Call.iso7816_xfr_block_TPDU_T0 cmd cmd.length r.2.2])

/-- The check of the user input: `ucSize = 0`, then the nested
`if (command == 1) ... else if (command == 2) ... else if (command == 3)`. -/
def dispatchCommand {σ : Type} (xfr : Xfr σ) (st : MenuState σ) (command : Nat) :
    MenuState σ × Nat × List Call :=
  if command = 1 then sendCommand xfr st testCommand1
  else if command = 2 then sendCommand xfr st testCommand2
  else if command = 3 then sendCommand xfr st testCommand3
  else (st, 0, [])

/-- The output of the smartcard answer: nothing when `ucSize` is 0, else the
bytes `pMessage[0 .. ucSize - 1]`.  Each read of `pMessage` is recorded with
its index; a read outside the buffer is recorded too and gives 0 here. -/
def outputAnswer (pMessage : List Nat) (ucSize : Nat) : List Call :=
  if ucSize > 0 then
    [Call.printf "\n\rAnswer: " []] ++
    ((List.range ucSize).flatMap fun i =>
      [Call.load_pMessage i, Call.printf "0x%02X " [PfArg.int (pMessage.getD i 0)]]) ++
    [Call.printf "\n\r" []]
  else []

/-- One iteration of the menu loop of `_send_receive_commands`, with `c` the
value `console_get_char` returns. -/
def menuIteration {σ : Type} (xfr : Xfr σ) (st : MenuState σ) (c : Nat) :
    MenuState σ × List Call :=
  let ucKey := c % 256
  let command := toUint8 ((ucKey : Int) - 48)
  let r := dispatchCommand xfr st command
  ({ r.1 with ucKey := ucKey },
   [Call.printf "\r                        " [],
    Call.printf "\rChoice ? (q to quit): " [],
    Call.console_get_char c,
    Call.printf "%c" [PfArg.int ucKey]] ++ r.2.2 ++ outputAnswer r.1.pMessage r.2.1)

/-- The condition of the menu loop, `ucKey != 'q'`. -/
def menuContinues {σ : Type} (st : MenuState σ) : Bool := st.ucKey != 113

/-- The menu loop `while (ucKey != 'q')` over the characters the console
delivers.  The result is the state, the trace, and whether the loop was left;
when the characters run out first the program is waiting in
`console_get_char`. -/
def menuLoop {σ : Type} (xfr : Xfr σ) : MenuState σ → List Nat → MenuState σ × List Call × Bool
  | st, [] => (st, [], !menuContinues st)
  | st, c :: cs =>
    if menuContinues st then
      let r := menuIteration xfr st c
      let rest := menuLoop xfr r.1 cs
      (rest.1, r.2 ++ rest.2.1, rest.2.2)
    else (st, [], true)

/-- The display of the menu at the start of `_send_receive_commands`. -/
def displayMenu : List Call :=
  [Call.printf "-I- Choose the command to send:\n\r" [], Call.printf "  1. " []] ++
  printCommand "0x%X " testCommand1 ++ [Call.printf "\n\r  2. " []] ++
  printCommand "0x%X " testCommand2 ++ [Call.printf "\n\r  3. " []] ++
  printCommand "0x%X " testCommand3 ++ [Call.printf "\n\r" []]

/-- The function `_send_receive_commands`: the answer buffer is cleared, the
menu displayed, `ucKey` set to 0 and the loop run; `Exit ...` is printed when
the loop is left. -/
def _send_receive_commands {σ : Type} (xfr : Xfr σ) (drv : σ) (keys : List Nat) :
    σ × List Call × Bool :=
  let st : MenuState σ := { drv := drv, pMessage := List.replicate MAX_ANSWER_SIZE 0, ucKey := 0 }
  let r := menuLoop xfr st keys
  (r.1.drv, displayMenu ++ r.2.1 ++ (if r.2.2 then [Call.printf "Exit ...\n\r" []] else []),
   r.2.2)

/-! ## The capture of the ATR

`main` calls `iso7816_get_data_block_ATR` and `iso7816_decode_ATR`, whose code
belongs to the ISO7816 driver and is not part of the example.  The capture is
modelled from the specification, sections 3, 4.2 and 4.3. -/

/-- Modelled from the spec: the fixed maximum of the ATR buffer, which the
driver `iso7816_get_data_block_ATR` (not in the example) respects ("raw bytes
(≤ a fixed maximum, e.g. 55)"). -/
def atrBufferMaximum : Nat := 55

/-- Modelled from the spec: the walk over the interface-byte groups that the
driver's ATR decoder (not in the example) makes.  For the presence bitmap `y`
of the group starting at `pos`, one byte is consumed for each of TA, TB, TC
present; if TD is present its high nibble is the bitmap of the next group and
a low nibble other than 0 asks for a final TCK.  The result is the position
after the last interface byte and whether a TCK follows the historical
bytes; `none` when a TD has not been received yet. -/
def atrInterfaceWalk : Nat → List Nat → Nat → Nat → Bool → Option (Nat × Bool)
  | 0, _, _, _, _ => none
  | fuel + 1, bytes, pos, y, tck =>
    let pos1 := pos + y % 2 + y / 2 % 2 + y / 4 % 2
    if y / 8 % 2 = 1 then
      match bytes[pos1]? with
      | none => none
      | some td => atrInterfaceWalk fuel bytes (pos1 + 1) (td / 16 % 16) (tck || td % 16 != 0)
    else some (pos1, tck)

/-- Modelled from the spec: the total length of the ATR as its first bytes
declare it (TS, T0, the interface bytes, the historical bytes counted by the
low nibble of T0, and TCK if applicable), for the driver's decoder, which is
not in the example; `none` while that length cannot be told yet. -/
def atrExpectedLength (bytes : List Nat) : Option Nat :=
  match bytes[1]? with
  | none => none
  | some t0 =>
    match atrInterfaceWalk (bytes.length + 1) bytes 2 (t0 / 16 % 16) false with
    | none => none
    | some r => some (r.1 + t0 % 16 + (if r.2 then 1 else 0))

/-- Modelled from the spec: "the decoder determines the ATR is complete
(historical byte count reached and, if applicable, TCK consumed)", for the
driver's decoder, which is not in the example. -/
def atrComplete (bytes : List Nat) : Bool :=
  match atrExpectedLength bytes with
  | none => false
  | some n => decide (n ≤ bytes.length)

/-- Modelled from the spec: the capture loop of the driver's reset sequencer
(not in the example): "bytes are appended to the ATR buffer until either the
decoder determines the ATR is complete or the buffer maximum is hit".  The
second list holds the bytes the card still has to send; the capture also ends
when the card sends no more. -/
def captureAtrLoop (maximum : Nat) : List Nat → List Nat → List Nat
  | buf, [] => buf
  | buf, b :: rest =>
    if atrComplete buf then buf
    else if maximum ≤ buf.length then buf
    else captureAtrLoop maximum (buf ++ [b]) rest

/-- Modelled from the spec: the driver function `iso7816_get_data_block_ATR`
(not in the example), which captures the bytes `card` sends after the reset.
The result is the list of the bytes stored, in order from index 0. -/
def iso7816_get_data_block_ATR (card : List Nat) : List Nat :=
  captureAtrLoop atrBufferMaximum [] card

/-- The indices of the buffer that a capture of `stored` bytes writes. -/
def atrWriteIndices (stored : List Nat) : List Nat := List.range stored.length

/-- The buffer after `stored` has been written into it from index 0. -/
def storeBlock (buf : List Nat) (stored : List Nat) : List Nat :=
  stored ++ buf.drop stored.length

/-! ## The decoding of the ATR

The decoder `iso7816_decode_ATR` is driver code too.  It is modelled from the
specification, sections 3 and 4.3, as a reader that consumes the bytes it is
given one at a time and records the index of every byte it reads. -/

/-- Modelled from the spec: the error kinds of the driver's ATR decoder (not
in the example): a TS other than the two legal values, bytes that end before
the ATR does ("reports truncation"), and a TCK that does not bring the XOR of
the bytes after TS to zero. -/
inductive AtrError where
  | MalformedAtr
  | Truncated
  | ChecksumError
deriving DecidableEq, Repr

/-- Modelled from the spec: one interface-byte group (TAi, TBi, TCi, TDi),
each byte optionally present, as the driver's decoder (not in the example)
yields it. -/
structure AtrGroup where
  ta : Option Nat
  tb : Option Nat
  tc : Option Nat
  td : Option Nat
deriving DecidableEq, Repr

/-- Modelled from the spec: the structured ATR the driver's decoder (not in
the example) yields: TS, T0, the interface-byte groups, the historical bytes
and the optional TCK. -/
structure DecodedAtr where
  ts : Nat
  t0 : Nat
  groups : List AtrGroup
  historical : List Nat
  tck : Option Nat
deriving DecidableEq, Repr

/-- The state of the decoder while it reads: the position of the next byte,
the indices read so far, in order, and the bytes found there. -/
structure AtrReader where
  pos : Nat
  reads : List Nat
  seen : List Nat
deriving DecidableEq, Repr

/-- A step of the decoder: from a reader state, a value and the state after
it, or an error and the state at which the decoder halted. -/
abbrev AtrStep (α : Type) : Type :=
  AtrReader → Except (AtrError × AtrReader) (α × AtrReader)

/-- The step that reads nothing and gives `a`. -/
def atrPure {α : Type} (a : α) : AtrStep α := fun r => Except.ok (a, r)

/-- The step that halts with the error `e`. -/
def atrFail {α : Type} (e : AtrError) : AtrStep α := fun r => Except.error (e, r)

/-- The step `f` followed, when it succeeds, by the step `g` of its value. -/
def atrThen {α β : Type} (f : AtrStep α) (g : α → AtrStep β) : AtrStep β := fun r =>
  match f r with
  | Except.error e => Except.error e
  | Except.ok (a, r1) => g a r1

/-- Modelled from the spec: the read of one byte by the driver's decoder (not
in the example).  When the position is past the bytes given, nothing is read
and the decoder halts with a truncation error ("decoding halts and reports
truncation rather than reading past the captured length"); else the index is
recorded as read. -/
def readAtrByte (raw : List Nat) : AtrStep Nat := fun r =>
  match raw[r.pos]? with
  | none => Except.error (AtrError.Truncated, r)
  | some b => Except.ok (b, AtrReader.mk (r.pos + 1) (r.reads ++ [r.pos]) (r.seen ++ [b]))

/-- Modelled from the spec: "for each present interface byte ... consume one
byte", for the driver's decoder (not in the example). -/
def readIfPresent (raw : List Nat) (present : Bool) : AtrStep (Option Nat) :=
  if present then atrThen (readAtrByte raw) (fun b => atrPure (some b)) else atrPure none

/-- Modelled from the spec: one interface-byte group with presence bitmap
`y`, its bytes consumed "in priority order TA, TB, TC, TD", for the driver's
decoder (not in the example). -/
def readGroup (raw : List Nat) (y : Nat) : AtrStep AtrGroup :=
  atrThen (readIfPresent raw (y % 2 == 1)) fun ta =>
  atrThen (readIfPresent raw (y / 2 % 2 == 1)) fun tb =>
  atrThen (readIfPresent raw (y / 4 % 2 == 1)) fun tc =>
  atrThen (readIfPresent raw (y / 8 % 2 == 1)) fun td =>
  atrPure { ta := ta, tb := tb, tc := tc, td := td }

/-- Modelled from the spec: the chain of interface-byte groups, for the
driver's decoder (not in the example): "if TD is present, its low nibble
selects the protocol of the next group and its high nibble gives the next
group's presence bitmap — repeat until no TD chains further", as "an explicit
loop over a bounded maximum chain length".  The value is the groups and
whether a TD declared a protocol other than 0, which asks for a TCK. -/
def readGroups (raw : List Nat) : Nat → Nat → Bool → AtrStep (List AtrGroup × Bool)
  | 0, _, _ => atrFail AtrError.Truncated
  | fuel + 1, y, tck =>
    atrThen (readGroup raw y) fun g =>
      match g.td with
      | none => atrPure ([g], tck)
      | some td =>
        atrThen (readGroups raw fuel (td / 16 % 16) (tck || td % 16 != 0)) fun rest =>
          atrPure (g :: rest.1, rest.2)

/-- Modelled from the spec: "consume the declared count of historical bytes",
for the driver's decoder (not in the example). -/
def readHistorical (raw : List Nat) : Nat → AtrStep (List Nat)
  | 0 => atrPure []
  | k + 1 =>
    atrThen (readAtrByte raw) fun b =>
    atrThen (readHistorical raw k) fun bs => atrPure (b :: bs)

/-- Modelled from the spec: the check of TCK by the driver's decoder (not in
the example): the XOR of all ATR bytes after TS, which the decoder has read,
must be zero, "else fail with ChecksumError". -/
def checkAtrXor : AtrStep Unit := fun r =>
  if (r.seen.drop 1).foldl Nat.xor 0 = 0 then Except.ok ((), r)
  else Except.error (AtrError.ChecksumError, r)

/-- Modelled from the spec: the algorithm of section 4.3 for the driver's
decoder (not in the example): TS (validated against the two legal values,
0x3B for the direct and 0x3F for the inverse convention), T0, the
interface-byte groups, the historical bytes, and TCK with its check when a TD
declared a protocol other than 0. -/
def decodeAtrStep (raw : List Nat) : AtrStep DecodedAtr :=
  atrThen (readAtrByte raw) fun ts =>
  if ts = 0x3B ∨ ts = 0x3F then
    atrThen (readAtrByte raw) fun t0 =>
    atrThen (readGroups raw (raw.length + 1) (t0 / 16 % 16) false) fun gs =>
    atrThen (readHistorical raw (t0 % 16)) fun hist =>
    if gs.2 then
      atrThen (readAtrByte raw) fun tck =>
      atrThen checkAtrXor fun _ =>
      atrPure { ts := ts, t0 := t0, groups := gs.1, historical := hist, tck := some tck }
    else
      atrPure { ts := ts, t0 := t0, groups := gs.1, historical := hist, tck := none }
  else atrFail AtrError.MalformedAtr

/-- The reader state in which a step ended, by success or by error. -/
def finalReader {α : Type} (x : Except (AtrError × AtrReader) (α × AtrReader)) : AtrReader :=
  match x with
  | Except.ok (_, r) => r
  | Except.error (_, r) => r

/-- What a decoding gives: the structured ATR or the error, and the indices
of the bytes that were read. -/
structure AtrDecoding where
  result : Except AtrError DecodedAtr
  reads : List Nat

/-- Modelled from the spec: the driver function `iso7816_decode_ATR` (not in
the example), the contract `decode(rawBytes) -> ATR | AtrError` of section
4.3, run from position 0 on the bytes it is handed. -/
def iso7816_decode_ATR (raw : List Nat) : AtrDecoding :=
  let x := decodeAtrStep raw { pos := 0, reads := [], seen := [] }
  { result :=
      match x with
      | Except.ok (a, _) => Except.ok a
      | Except.error (e, _) => Except.error e,
    reads := (finalReader x).reads }

/-! ## The function `main` -/

/-- The part of `main` under `CONFIG_HAVE_PMIC_ACT8945A`; `ok` is what
`act8945a_configure` returns. -/
def configurePmic (b : Board) (ok : Bool) : List Call :=
  if b.CONFIG_HAVE_PMIC_ACT8945A then
    [Call.pio_configure ⟨PinArray.act8945a_pins, 0⟩ b.ACT8945A_PINS.length,
     Call.act8945a_configure ok] ++
    (if ok then
      [Call.act8945a_set_regulator_voltage 6 2500, Call.act8945a_enable_regulator 6 true]
     else [Call.printf "--E-- Error initializing ACT8945A PMIC\n\r" []])
  else []

/-- What `main` has done when it stops making calls. -/
structure MainResult (σ : Type) where
  trace : List Call
  Atr : List Nat
  size : Nat
  decoded : AtrDecoding
  drv : σ
  exited : Bool

/-- The function `main`.  Its inputs are the board constants, the result of
`act8945a_configure`, the bytes the card sends after the warm reset, the
smartcard driver with its state, and the characters the console delivers.
The call of `iso7816_get_data_block_ATR` is followed in the trace by the
writes it makes to `Atr`, and the call of `iso7816_decode_ATR`, which is
handed the buffer `Atr` and no length, by the reads it makes of `Atr`. -/
def main {σ : Type} (b : Board) (pmicOk : Bool) (card : List Nat) (xfr : Xfr σ) (drv : σ)
    (keys : List Nat) : MainResult σ :=
  let Atr0 := List.replicate MAX_ATR_SIZE 0
  let stored := iso7816_get_data_block_ATR card
  let Atr := storeBlock Atr0 stored
  let size := stored.length % 256
  let decoded := iso7816_decode_ATR Atr
  let r := _send_receive_commands xfr drv keys
  { trace :=
      [Call.wdt_disable, Call.pio_reset_all_it, Call.console_configure b.CONSOLE_BAUDRATE,
       Call.console_clear_screen, Call.console_reset_cursor,
       Call.printf "Configure PIT \n\r" [], Call.timer_configure BLINK_PERIOD,
       Call.printf "-- USART ISO7816 Example %s --\n\r" [PfArg.str b.SOFTPACK_VERSION],
       Call.printf "-- %s\n\r" [PfArg.str b.BOARD_NAME],
       Call.printf "-- Compiled: %s %s --\n\r" [PfArg.str b.compileDate, PfArg.str b.compileTime]]
      ++ configurePmic b pmicOk ++
      [Call.printf "Configure LED PIOs.\n\r" []] ++ _configure_leds ++
      [Call.led_set b.LED_GREEN, Call.timer_wait 500, Call.led_clear b.LED_GREEN,
       Call.store_led_status b.LED_BLUE true,
       Call.printf "Configure buttons with debouncing.\n\r" []] ++
      _configure_buttons b.PINS_PUSHBUTTONS ++
      [Call.pio_configure ⟨PinArray.pins_com2, 0⟩ (pins_com2 b).length,
       Call.iso7816_init (iso7816_opt b),
       Call.iso7816_warm_reset,
       Call.iso7816_get_data_block_ATR stored size] ++
      (atrWriteIndices stored).map Call.store_Atr ++
      [Call.iso7816_decode_ATR Atr] ++
      decoded.reads.map Call.load_Atr ++
      r.2.1 ++ (if r.2.2 then [Call.printf "\n\r Exit App \n\r" []] else []),
    Atr := Atr,
    size := size,
    decoded := decoded,
    drv := r.1,
    exited := r.2.2 }

/-- Whether a call is one into the ISO7816 driver. -/
def isIso7816Call : Call → Bool
  | Call.iso7816_init _ => true
  | Call.iso7816_warm_reset => true
  | Call.iso7816_get_data_block_ATR _ _ => true
  | Call.iso7816_decode_ATR _ => true
  | Call.iso7816_xfr_block_TPDU_T0 _ _ _ => true
  | _ => false

/-- Whether a call is a transfer `iso7816_xfr_block_TPDU_T0`. -/
def isXfrCall : Call → Bool
  | Call.iso7816_xfr_block_TPDU_T0 _ _ _ => true
  | _ => false

/-- Whether a call is `pio_enable_it`. -/
def isEnableIt : Call → Bool
  | Call.pio_enable_it _ => true
  | _ => false

/-- Whether a call is a write or a read of the buffer `Atr`. -/
def isAtrAccess : Call → Bool
  | Call.store_Atr _ => true
  | Call.load_Atr _ => true
  | _ => false

/-- Whether a decoding halted on a truncation. -/
def reportsTruncation (d : AtrDecoding) : Bool :=
  match d.result with
  | Except.error AtrError.Truncated => true
  | _ => false

/-- Whether a decoding gave a structured ATR. -/
def decodedOk (d : AtrDecoding) : Bool :=
  match d.result with
  | Except.ok _ => true
  | Except.error _ => false

/-- A reader state is well formed for the bytes `raw`: the indices it has
recorded are those below its position, in order, and its position is not past
the end of `raw`. -/
def ReaderOk (raw : List Nat) (r : AtrReader) : Prop :=
  r.reads = List.range r.pos ∧ r.pos ≤ raw.length

/-- A step keeps the reader well formed, whether it succeeds or halts. -/
def StepKeeps {α : Type} (raw : List Nat) (f : AtrStep α) : Prop :=
  ∀ r, ReaderOk raw r → ReaderOk raw (finalReader (f r))

/-! ## Inputs used to evaluate the model -/

/-- A board with two push buttons. -/
def exampleBoard : Board where
  SOFTPACK_VERSION := "2.0"
  BOARD_NAME := "sama5d2-xplained"
  compileDate := "Jan  1 2016"
  compileTime := "00:00:00"
  CONSOLE_BAUDRATE := 115200
  LED_GREEN := 1
  LED_BLUE := 2
  PINS_PUSHBUTTONS := [⟨1, 0x200, 0, 0⟩, ⟨1, 0x400, 0, 0⟩]
  CONFIG_HAVE_PMIC_ACT8945A := true
  ACT8945A_PINS := [⟨0, 1, 0, 0⟩]
  PIO_GROUP_B := 1
  PIO_PB28C_FLEXCOM0_IO0 := 0x10000000
  PIO_PB30C_FLEXCOM0_IO2 := 0x40000000
  PIO_PERIPH_C := 3
  PIO_DEFAULT := 0
  US_MR_USART_MODE_IS07816_T_0 := 4
  US_MR_USCLKS_MCK := 0
  US_MR_CHRL_8_BIT := 0xC0
  US_MR_PAR_EVEN := 0
  US_MR_NBSTOP_2_BIT := 0x2000

/-- A card that answers every command with the status word 0x90 0x00 and no
data. -/
def exampleXfr : Xfr Unit := fun _ _ _ _ => ((), [0x90, 0x00, 0, 0, 0, 0, 0, 0, 0, 0], 2)

/-- The state of the menu when the loop is entered. -/
def exampleMenuState : MenuState Unit :=
  { drv := (), pMessage := List.replicate MAX_ANSWER_SIZE 0, ucKey := 0 }

/-- A card whose ATR declares 66 bytes: T0 = 0xFF, twelve interface-byte
groups of four bytes, the last TD asking for protocol 1 and so for a TCK, and
fifteen historical bytes. -/
def truncatedCard : List Nat :=
  [0x3B, 0xFF] ++ (List.replicate 11 [0x11, 0x22, 0x33, 0xF0]).flatten ++
  [0x11, 0x22, 0x33, 0x01] ++ List.replicate 15 0x41 ++ [0x00]

/-- A card whose ATR has 11 bytes (TA1, TD1, TD2, five historical bytes and
TCK), followed by two bytes that do not belong to it. -/
def completeCard : List Nat :=
  [0x3B, 0x95, 0x13, 0x81, 0x01, 0x80, 0x01, 0x02, 0x03, 0x04, 0x82, 0x99, 0x07]

/-! ## The bound of C4 on the answer of a command -/

/-- The largest answer the protocol allows for a command, in the words of
C4: for a header-only command the P3 incoming data bytes plus SW1 and SW2 (a
command without a byte at index 4 announces no data), for a command with
outgoing data SW1 and SW2 alone. -/
def protocolAnswerBound (cmd : List Nat) : Nat :=
  if cmd.length ≤ 5 then cmd.getD 4 0 + 2 else 2

/-! ## The test commands and the session options -/

/-- C5: every test command of the example that is longer than the 5-byte
header has exactly P3 bytes after the header (its length is 5 plus its byte at
index 4); the only such command is test command 3, of length 7 = 5 + 2 with
the data bytes 0x0A, 0x0B. -/
theorem C5_outgoing_data_matches_P3 (cmd : List Nat) (hmem : cmd ∈ testCommands)
    (hlen : 5 < cmd.length) :
    (∃ p3, cmd[4]? = some p3 ∧ cmd.length = 5 + p3 ∧ (cmd.drop 5).length = p3) ∧
    cmd = testCommand3 ∧ testCommand3.length = 7 ∧ testCommand3[4]? = some 2 ∧
    testCommand3.drop 5 = [0x0A, 0x0B] := by
  simp only [testCommands, List.mem_cons, List.mem_singleton, List.not_mem_nil, or_false] at hmem
  rcases hmem with h | h | h
  · subst h; simp [testCommand1] at hlen
  · subst h; simp [testCommand2] at hlen
  · subst h; simp [testCommand3]

/-- Witness for C5 at test command 3. -/
theorem C5_outgoing_data_matches_P3_witness :
    testCommand3 ∈ testCommands ∧ 5 < testCommand3.length ∧
    (∃ p3, testCommand3[4]? = some p3 ∧ testCommand3.length = 5 + p3 ∧
      (testCommand3.drop 5).length = p3) :=
  ⟨by decide, by decide,
   (C5_outgoing_data_matches_P3 testCommand3 (by decide) (by decide)).1⟩

/-- C6: the session options handed to `iso7816_init` by `main` have
`max_iterations = 3` and `fidi_ratio = 372`; the clock `iso7816_hz` is
`ISO7816_BAUDRATE * ISO7816_FI_DI = 3571200`, which is below 2^31 (so neither
the `int` product nor the 32-bit field overflows) and is an exact multiple of
the Fi/Di ratio with quotient 9600. -/
theorem C6_session_options_clock {σ : Type} (b : Board) (pmicOk : Bool) (card : List Nat)
    (xfr : Xfr σ) (drv : σ) (keys : List Nat) :
    Call.iso7816_init (iso7816_opt b) ∈ (main b pmicOk card xfr drv keys).trace ∧
    (iso7816_opt b).max_iterations = 3 ∧ (iso7816_opt b).fidi_ratio = 372 ∧
    (iso7816_opt b).iso7816_hz = ISO7816_BAUDRATE * ISO7816_FI_DI ∧
    ISO7816_BAUDRATE * ISO7816_FI_DI = 3571200 ∧
    ISO7816_BAUDRATE * ISO7816_FI_DI < 2 ^ 31 ∧
    (iso7816_opt b).iso7816_hz < 2 ^ 32 ∧
    (iso7816_opt b).iso7816_hz % (iso7816_opt b).fidi_ratio = 0 ∧
    (iso7816_opt b).iso7816_hz / (iso7816_opt b).fidi_ratio = 9600 := by
  have hz : (iso7816_opt b).iso7816_hz = 3571200 := by
    show (ISO7816_BAUDRATE * ISO7816_FI_DI) % 2 ^ 32 = 3571200
    decide
  have hr : (iso7816_opt b).fidi_ratio = 372 := rfl
  refine ⟨?_, rfl, rfl, ?_, by decide, by decide, ?_, ?_, ?_⟩
  · simp [main]
  · rw [hz]; decide
  · rw [hz]; decide
  · rw [hz, hr]
  · rw [hz, hr]

/-! ## The push button -/

/-- The complement of 0 is 0xFF and the complement of 0xFF is 0. -/
theorem bitNot8_values : bitNot8 0 = 0xFF ∧ bitNot8 0xFF = 0 := by decide

/-- The value of `smartcard` by the parity of the number of calls, from 0 or
0xFF. -/
theorem smartcardFrom_parity (bts : List Nat) :
    ∀ s, s = 0 ∨ s = 0xFF →
      smartcardFrom s bts = if bts.length % 2 = 0 then s else 0xFF - s := by
  induction bts with
  | nil => intro s _; rfl
  | cons bt rest ih =>
    intro s hs
    have hstep : smartcardFrom s (bt :: rest) = smartcardFrom (bitNot8 s) rest := rfl
    rw [hstep]
    rcases hs with h | h
    · subst h
      rw [bitNot8_values.1, ih 0xFF (Or.inr rfl)]
      simp only [List.length_cons]
      rcases Nat.mod_two_eq_zero_or_one rest.length with hr | hr
      · have h1 : (rest.length + 1) % 2 = 1 := by omega
        simp [hr, h1]
      · have h1 : (rest.length + 1) % 2 = 0 := by omega
        simp [hr, h1]
    · subst h
      rw [bitNot8_values.2, ih 0 (Or.inl rfl)]
      simp only [List.length_cons]
      rcases Nat.mod_two_eq_zero_or_one rest.length with hr | hr
      · have h1 : (rest.length + 1) % 2 = 1 := by omega
        simp [hr, h1]
      · have h1 : (rest.length + 1) % 2 = 0 := by omega
        simp [hr, h1]

/-- C7: from `smartcard = 0`, after `n` calls of `process_button_evt` (with
any arguments `bts`, `n` their number) the variable is 0 when `n` is even and
0xFF when `n` is odd, hence never another value; the next call, number
`n + 1`, prints "Smartcard inserted" exactly when `n + 1` is odd and
"Smartcard removed" exactly when `n + 1` is even. -/
theorem C7_button_alternates (bts : List Nat) (bt : Nat) :
    (smartcardAfter bts = if bts.length % 2 = 0 then 0 else 0xFF) ∧
    (smartcardAfter bts = 0 ∨ smartcardAfter bts = 0xFF) ∧
    (buttonReport bts bt = [Call.printf "-I- Smartcard inserted\n\r" []] ↔
      (bts.length + 1) % 2 = 1) ∧
    (buttonReport bts bt = [Call.printf "-I- Smartcard removed\n\r" []] ↔
      (bts.length + 1) % 2 = 0) := by
  have hp : smartcardAfter bts = if bts.length % 2 = 0 then 0 else 0xFF := by
    have h := smartcardFrom_parity bts 0 (Or.inl rfl)
    simpa [smartcardAfter] using h
  refine ⟨hp, ?_, ?_, ?_⟩
  · rw [hp]; split <;> simp
  · rcases Nat.mod_two_eq_zero_or_one bts.length with h | h
    · have h1 : (bts.length + 1) % 2 = 1 := by omega
      simp [buttonReport, process_button_evt, hp, h, h1]
    · have h1 : (bts.length + 1) % 2 = 0 := by omega
      simp [buttonReport, process_button_evt, hp, h, h1]
  · rcases Nat.mod_two_eq_zero_or_one bts.length with h | h
    · have h1 : (bts.length + 1) % 2 = 1 := by omega
      simp [buttonReport, process_button_evt, hp, h, h1]
    · have h1 : (bts.length + 1) % 2 = 0 := by omega
      simp [buttonReport, process_button_evt, hp, h, h1]

/-- Every `pio_enable_it` of `_configure_buttons` is applied to the first
element of `button_pins`. -/
theorem configure_buttons_enables_first_only (button_pins : List Pin) (c : Call)
    (hc : c ∈ _configure_buttons button_pins) (he : isEnableIt c = true) :
    c = Call.pio_enable_it ⟨PinArray.button_pins, 0⟩ := by
  simp only [_configure_buttons, List.mem_flatMap, List.mem_range, configureButton,
    List.mem_cons, List.mem_singleton, List.not_mem_nil, or_false] at hc
  obtain ⟨i, _, h | h | h | h | h⟩ := hc <;> subst h <;> simp_all [isEnableIt]

/-- C8, the code at a board with two push buttons: both passes of the loop of
`_configure_buttons` apply `pio_enable_it` to `button_pins[0]`; the second
button is configured as input, filtered and given the handler, but
`pio_enable_it` is never applied to `button_pins[1]`. -/
theorem C8_second_button_interrupt_not_enabled :
    exampleBoard.PINS_PUSHBUTTONS.length = 2 ∧
    (_configure_buttons exampleBoard.PINS_PUSHBUTTONS).filter isEnableIt =
      [Call.pio_enable_it ⟨PinArray.button_pins, 0⟩,
       Call.pio_enable_it ⟨PinArray.button_pins, 0⟩] ∧
    Call.pio_configure ⟨PinArray.button_pins, 1⟩ 1 ∈
      _configure_buttons exampleBoard.PINS_PUSHBUTTONS ∧
    Call.pio_set_debounce_filter ⟨PinArray.button_pins, 1⟩ 10 ∈
      _configure_buttons exampleBoard.PINS_PUSHBUTTONS ∧
    Call.pio_configure_it ⟨PinArray.button_pins, 1⟩ ∈
      _configure_buttons exampleBoard.PINS_PUSHBUTTONS ∧
    Call.pio_add_handler_to_group 1 0x400 ∈ _configure_buttons exampleBoard.PINS_PUSHBUTTONS ∧
    Call.pio_enable_it ⟨PinArray.button_pins, 1⟩ ∉
      _configure_buttons exampleBoard.PINS_PUSHBUTTONS := by
  decide

/-! ## The command menu: which calls an iteration makes -/

/-- The 8-bit difference `ucKey - '0'` is 1, 2 or 3 only for the keys '1',
'2' and '3'. -/
theorem command_eq_iff (k : Nat) (hk : k < 256) (d : Nat) (hd : d < 208) :
    toUint8 ((k : Int) - 48) = d ↔ k = d + 48 := by
  unfold toUint8
  omega

/-- The output of the answer makes no call to the driver. -/
theorem outputAnswer_no_xfr (pMessage : List Nat) (ucSize : Nat) :
    (outputAnswer pMessage ucSize).filter isXfrCall = [] := by
  rw [List.filter_eq_nil_iff]
  intro c hc
  unfold outputAnswer at hc
  split at hc
  · simp only [List.mem_append, List.mem_singleton, List.mem_flatMap, List.mem_range,
      List.mem_cons, List.not_mem_nil, or_false] at hc
    rcases hc with (h | ⟨i, _, h | h⟩) | h <;> subst h <;> simp [isXfrCall]
  · simp at hc

/-- Printing a command makes no call to the driver. -/
theorem printCommand_no_xfr (fmt : String) (cmd : List Nat) :
    (printCommand fmt cmd).filter isXfrCall = [] := by
  rw [List.filter_eq_nil_iff]
  intro c hc
  simp only [printCommand, List.mem_map] at hc
  obtain ⟨b, _, h⟩ := hc
  subst h
  simp [isXfrCall]

/-- Sending a command calls the driver once, with the command and its
length. -/
theorem sendCommand_xfr {σ : Type} (xfr : Xfr σ) (st : MenuState σ) (cmd : List Nat) :
    (sendCommand xfr st cmd).2.2.filter isXfrCall =
      [Call.iso7816_xfr_block_TPDU_T0 cmd cmd.length
        (xfr st.drv cmd st.pMessage cmd.length).2.2] := by
  simp [sendCommand, List.filter_append, printCommand_no_xfr, isXfrCall, List.filter_cons]

/-- The driver calls of one iteration of the menu loop, by the key read. -/
theorem menuIteration_xfr {σ : Type} (xfr : Xfr σ) (st : MenuState σ) (c : Nat) :
    (menuIteration xfr st c).2.filter isXfrCall =
      if c % 256 = 49 then
        [Call.iso7816_xfr_block_TPDU_T0 testCommand1 testCommand1.length
          (xfr st.drv testCommand1 st.pMessage testCommand1.length).2.2]
      else if c % 256 = 50 then
        [Call.iso7816_xfr_block_TPDU_T0 testCommand2 testCommand2.length
          (xfr st.drv testCommand2 st.pMessage testCommand2.length).2.2]
      else if c % 256 = 51 then
        [Call.iso7816_xfr_block_TPDU_T0 testCommand3 testCommand3.length
          (xfr st.drv testCommand3 st.pMessage testCommand3.length).2.2]
      else [] := by
  have hk : c % 256 < 256 := Nat.mod_lt _ (by decide)
  have h1 := command_eq_iff (c % 256) hk 1 (by decide)
  have h2 := command_eq_iff (c % 256) hk 2 (by decide)
  have h3 := command_eq_iff (c % 256) hk 3 (by decide)
  simp only [menuIteration, List.filter_append, outputAnswer_no_xfr, List.append_nil]
  have hpre : List.filter isXfrCall
      [Call.printf "\r                        " [], Call.printf "\rChoice ? (q to quit): " [],
       Call.console_get_char c, Call.printf "%c" [PfArg.int (c % 256)]] = [] := by
    simp [List.filter_cons, isXfrCall]
  rw [hpre, List.nil_append]
  unfold dispatchCommand
  simp only [h1, h2, h3]
  split
  · exact sendCommand_xfr xfr st testCommand1
  · split
    · exact sendCommand_xfr xfr st testCommand2
    · split
      · exact sendCommand_xfr xfr st testCommand3
      · rfl

/-- The check of the user input either sends nothing and leaves `ucSize` 0,
or sends one of the three test commands. -/
theorem dispatchCommand_cases {σ : Type} (xfr : Xfr σ) (st : MenuState σ) (command : Nat) :
    dispatchCommand xfr st command = (st, 0, []) ∨
    ∃ cmd, cmd ∈ testCommands ∧ dispatchCommand xfr st command = sendCommand xfr st cmd := by
  unfold dispatchCommand
  split
  · exact Or.inr ⟨testCommand1, by simp [testCommands], rfl⟩
  · split
    · exact Or.inr ⟨testCommand2, by simp [testCommands], rfl⟩
    · split
      · exact Or.inr ⟨testCommand3, by simp [testCommands], rfl⟩
      · exact Or.inl rfl

/-- The reads of `pMessage` in one iteration are those at the indices below
`ucSize`. -/
theorem menuIteration_load_iff {σ : Type} (xfr : Xfr σ) (st : MenuState σ) (c i : Nat) :
    Call.load_pMessage i ∈ (menuIteration xfr st c).2 ↔
      i < (dispatchCommand xfr st (toUint8 (((c % 256 : Nat) : Int) - 48))).2.1 := by
  have hout : ∀ (m : List Nat) (n : Nat), Call.load_pMessage i ∈ outputAnswer m n ↔ i < n := by
    intro m n
    unfold outputAnswer
    split
    · simp
    · simp; omega
  simp only [menuIteration, List.mem_append, hout]
  rcases dispatchCommand_cases xfr st (toUint8 (((c % 256 : Nat) : Int) - 48)) with h | ⟨cmd, _, h⟩
  · rw [h]; simp
  · rw [h]; simp [sendCommand, printCommand]

/-- The line "Answer: " is printed in an iteration exactly when `ucSize` is
not 0. -/
theorem menuIteration_answer_iff {σ : Type} (xfr : Xfr σ) (st : MenuState σ) (c : Nat) :
    Call.printf "\n\rAnswer: " [] ∈ (menuIteration xfr st c).2 ↔
      0 < (dispatchCommand xfr st (toUint8 (((c % 256 : Nat) : Int) - 48))).2.1 := by
  have hout : ∀ (m : List Nat) (n : Nat),
      Call.printf "\n\rAnswer: " [] ∈ outputAnswer m n ↔ 0 < n := by
    intro m n
    unfold outputAnswer
    split
    · simp; assumption
    · simp; omega
  have hs1 : ¬ ("\n\rAnswer: " = "\r                        ") := by decide
  have hs2 : ¬ ("\n\rAnswer: " = "\rChoice ? (q to quit): ") := by decide
  have hs3 : ¬ ("\n\rAnswer: " = "\n\r-I- Sending command ") := by decide
  have hs4 : ¬ ("\n\rAnswer: " = "...\n\r") := by decide
  simp only [menuIteration, List.mem_append, hout]
  rcases dispatchCommand_cases xfr st (toUint8 (((c % 256 : Nat) : Int) - 48)) with h | ⟨cmd, _, h⟩
  · rw [h]; simp [hs1, hs2]
  · rw [h]; simp [sendCommand, printCommand, hs1, hs2, hs3, hs4]

/-! ## The commands handed to the driver -/

/-- C1, as stated, fails at menu choice 1 (key '1'): the command handed to the
driver is the 4-byte array 0x00 0x10 0x00 0x00 with size 4, so it is not true
that every command sent has an array and a size of at least 5 bytes. -/
theorem C1_choice1_is_four_bytes :
    Call.iso7816_xfr_block_TPDU_T0 [0x00, 0x10, 0x00, 0x00] 4 2 ∈
      (menuIteration exampleXfr exampleMenuState 49).2 ∧
    ¬ (∀ cmd wLength ret, Call.iso7816_xfr_block_TPDU_T0 cmd wLength ret ∈
        (menuIteration exampleXfr exampleMenuState 49).2 →
        5 ≤ cmd.length ∧ 5 ≤ wLength) := by
  have hmem : Call.iso7816_xfr_block_TPDU_T0 [0x00, 0x10, 0x00, 0x00] 4 2 ∈
      (menuIteration exampleXfr exampleMenuState 49).2 := by decide
  refine ⟨hmem, fun h => ?_⟩
  have h5 := (h _ _ _ hmem).2
  omega

/-- C1, amended: every command handed to `iso7816_xfr_block_TPDU_T0` in an
iteration of the menu is one of the three test commands, passed with its own
length as size, and that length is at least 4, so CLA, INS, P1 and P2 exist.
Menu choice 1 passes the 4-byte command 0x00 0x10 0x00 0x00, which has no
byte at index 4; choices 2 and 3 pass test commands 2 and 3, of 5 and 7
bytes. -/
theorem C1_commands_handed_to_driver {σ : Type} (xfr : Xfr σ) (st : MenuState σ) (c : Nat)
    (cmd : List Nat) (wLength ret : Nat)
    (h : Call.iso7816_xfr_block_TPDU_T0 cmd wLength ret ∈ (menuIteration xfr st c).2) :
    cmd ∈ testCommands ∧ wLength = cmd.length ∧ 4 ≤ cmd.length ∧
    (c % 256 = 49 → cmd = [0x00, 0x10, 0x00, 0x00] ∧ wLength = 4 ∧ cmd[4]? = none) ∧
    (c % 256 = 50 → cmd = testCommand2 ∧ wLength = 5) ∧
    (c % 256 = 51 → cmd = testCommand3 ∧ wLength = 7) ∧
    (c % 256 = 49 ∨ c % 256 = 50 ∨ c % 256 = 51) := by
  have hm : Call.iso7816_xfr_block_TPDU_T0 cmd wLength ret ∈
      (menuIteration xfr st c).2.filter isXfrCall := List.mem_filter.mpr ⟨h, rfl⟩
  rw [menuIteration_xfr] at hm
  split at hm
  · next h1 =>
    simp only [List.mem_singleton, Call.iso7816_xfr_block_TPDU_T0.injEq] at hm
    obtain ⟨rfl, rfl, _⟩ := hm
    simp [h1, testCommands, testCommand1]
  · split at hm
    · next h2 =>
      simp only [List.mem_singleton, Call.iso7816_xfr_block_TPDU_T0.injEq] at hm
      obtain ⟨rfl, rfl, _⟩ := hm
      simp [h2, testCommands, testCommand2]
    · split at hm
      · next h3 =>
        simp only [List.mem_singleton, Call.iso7816_xfr_block_TPDU_T0.injEq] at hm
        obtain ⟨rfl, rfl, _⟩ := hm
        simp [h3, testCommands, testCommand3]
      · simp at hm

/-- Witness for the amended C1 at menu choice 1. -/
theorem C1_commands_handed_to_driver_witness :
    Call.iso7816_xfr_block_TPDU_T0 testCommand1 4 2 ∈
      (menuIteration exampleXfr exampleMenuState 49).2 ∧
    testCommand1 = [0x00, 0x10, 0x00, 0x00] ∧ testCommand1[4]? = none :=
  ⟨by decide,
   ((C1_commands_handed_to_driver exampleXfr exampleMenuState 49 testCommand1 4 2
      (by decide)).2.2.2.1 (by decide)).1,
   ((C1_commands_handed_to_driver exampleXfr exampleMenuState 49 testCommand1 4 2
      (by decide)).2.2.2.1 (by decide)).2.2⟩

/-! ## The size of the answer -/

/-- C4: if, for each of the three test commands, the transfer returns no more
bytes than the protocol allows for it, then in an iteration of the menu the
size returned by every transfer is at most `MAX_ANSWER_SIZE` (10), so is the
8-bit `ucSize`, and the answer loop reads `pMessage` only at indices below
`MAX_ANSWER_SIZE`. -/
theorem C4_answer_within_buffer {σ : Type} (xfr : Xfr σ) (st : MenuState σ) (c : Nat)
    (hret : ∀ cmd, cmd ∈ testCommands →
      (xfr st.drv cmd st.pMessage cmd.length).2.2 ≤ protocolAnswerBound cmd) :
    MAX_ANSWER_SIZE = 10 ∧
    (∀ cmd wLength ret, Call.iso7816_xfr_block_TPDU_T0 cmd wLength ret ∈
      (menuIteration xfr st c).2 → ret ≤ MAX_ANSWER_SIZE) ∧
    (dispatchCommand xfr st (toUint8 (((c % 256 : Nat) : Int) - 48))).2.1 ≤ MAX_ANSWER_SIZE ∧
    (∀ i, Call.load_pMessage i ∈ (menuIteration xfr st c).2 → i < MAX_ANSWER_SIZE) := by
  have hb : ∀ cmd, cmd ∈ testCommands → protocolAnswerBound cmd ≤ MAX_ANSWER_SIZE := by decide
  have hsize : (dispatchCommand xfr st (toUint8 (((c % 256 : Nat) : Int) - 48))).2.1
      ≤ MAX_ANSWER_SIZE := by
    rcases dispatchCommand_cases xfr st (toUint8 (((c % 256 : Nat) : Int) - 48)) with
      h | ⟨cmd, hcmd, h⟩
    · rw [h]; exact Nat.zero_le _
    · rw [h]
      have h1 := hret cmd hcmd
      have h2 := hb cmd hcmd
      have h3 := Nat.mod_le (xfr st.drv cmd st.pMessage cmd.length).2.2 256
      simp only [sendCommand]
      omega
  refine ⟨rfl, ?_, hsize, ?_⟩
  · intro cmd wLength ret h
    have hm : Call.iso7816_xfr_block_TPDU_T0 cmd wLength ret ∈
        (menuIteration xfr st c).2.filter isXfrCall := List.mem_filter.mpr ⟨h, rfl⟩
    have hall : ∀ t, t ∈ testCommands → Call.iso7816_xfr_block_TPDU_T0 cmd wLength ret ∈
        [Call.iso7816_xfr_block_TPDU_T0 t t.length (xfr st.drv t st.pMessage t.length).2.2] →
        ret ≤ MAX_ANSWER_SIZE := by
      intro t ht hmem
      simp only [List.mem_singleton, Call.iso7816_xfr_block_TPDU_T0.injEq] at hmem
      obtain ⟨_, _, rfl⟩ := hmem
      exact Nat.le_trans (hret t ht) (hb t ht)
    rw [menuIteration_xfr] at hm
    split at hm
    · exact hall testCommand1 (by simp [testCommands]) hm
    · split at hm
      · exact hall testCommand2 (by simp [testCommands]) hm
      · split at hm
        · exact hall testCommand3 (by simp [testCommands]) hm
        · simp at hm
  · intro i hi
    exact Nat.lt_of_lt_of_le ((menuIteration_load_iff xfr st c i).mp hi) hsize

/-- Witness for C4: a card that answers each command with two status bytes,
at menu choice 2. -/
theorem C4_answer_within_buffer_witness :
    (∀ cmd, cmd ∈ testCommands →
      (exampleXfr exampleMenuState.drv cmd exampleMenuState.pMessage cmd.length).2.2
        ≤ protocolAnswerBound cmd) ∧
    Call.load_pMessage 1 ∈ (menuIteration exampleXfr exampleMenuState 50).2 ∧
    (∀ i, Call.load_pMessage i ∈ (menuIteration exampleXfr exampleMenuState 50).2 →
      i < MAX_ANSWER_SIZE) :=
  ⟨by decide, by decide,
   (C4_answer_within_buffer exampleXfr exampleMenuState 50 (by decide)).2.2.2⟩

/-! ## One iteration of the menu loop -/

/-- C9: in an iteration of the menu loop, for every 8-bit key `c`: the driver
calls of the iteration are exactly one transfer of test command K with its
size (4, 5, 7) when `c` is the character '1', '2' or '3', and none for any
other key; after the iteration the loop condition is false exactly when `c`
is 'q', in which case no command is sent and the loop is left without reading
another key, while for another key followed by no input the loop is not left;
and "Answer: " is printed only if a transfer was made in this iteration and
returned a size other than 0. -/
theorem C9_menu_iteration {σ : Type} (xfr : Xfr σ) (st : MenuState σ) (c : Nat)
    (hc : c < 256) (hrun : menuContinues st = true) (cs : List Nat) :
    ((menuIteration xfr st c).2.filter isXfrCall =
      if c = 49 then
        [Call.iso7816_xfr_block_TPDU_T0 testCommand1 4
          (xfr st.drv testCommand1 st.pMessage 4).2.2]
      else if c = 50 then
        [Call.iso7816_xfr_block_TPDU_T0 testCommand2 5
          (xfr st.drv testCommand2 st.pMessage 5).2.2]
      else if c = 51 then
        [Call.iso7816_xfr_block_TPDU_T0 testCommand3 7
          (xfr st.drv testCommand3 st.pMessage 7).2.2]
      else []) ∧
    (menuContinues (menuIteration xfr st c).1 = false ↔ c = 113) ∧
    (c = 113 → (menuIteration xfr st c).2.filter isXfrCall = [] ∧
      menuLoop xfr st (c :: cs) = ((menuIteration xfr st c).1, (menuIteration xfr st c).2, true)) ∧
    ((menuLoop xfr st [c]).2.2 = true ↔ c = 113) ∧
    (Call.printf "\n\rAnswer: " [] ∈ (menuIteration xfr st c).2 →
      ∃ cmd wLength ret, Call.iso7816_xfr_block_TPDU_T0 cmd wLength ret ∈
        (menuIteration xfr st c).2 ∧ ret ≠ 0) := by
  have hmod : c % 256 = c := Nat.mod_eq_of_lt hc
  have hx := menuIteration_xfr xfr st c
  rw [hmod] at hx
  have hkey : (menuIteration xfr st c).1.ucKey = c := by simp [menuIteration, hmod]
  have hcont : menuContinues (menuIteration xfr st c).1 = false ↔ c = 113 := by
    simp [menuContinues, hkey]
  refine ⟨hx, hcont, ?_, ?_, ?_⟩
  · intro h113
    refine ⟨?_, ?_⟩
    · rw [hx]; subst h113; simp
    · have hstop := hcont.mpr h113
      cases cs with
      | nil => simp [menuLoop, hrun, hstop]
      | cons d ds => simp [menuLoop, hrun, hstop]
  · simp only [menuLoop, hrun, if_true, Bool.not_eq_true']
    exact hcont
  · intro hans
    have hpos := (menuIteration_answer_iff xfr st c).mp hans
    rcases dispatchCommand_cases xfr st (toUint8 (((c % 256 : Nat) : Int) - 48)) with
      h | ⟨cmd, _, h⟩
    · rw [h] at hpos; simp at hpos
    · refine ⟨cmd, cmd.length, (xfr st.drv cmd st.pMessage cmd.length).2.2, ?_, ?_⟩
      · simp only [menuIteration, List.mem_append]
        rw [h]
        exact Or.inl (Or.inr (by simp [sendCommand]))
      · rw [h] at hpos
        simp only [sendCommand] at hpos
        intro h0
        rw [h0] at hpos
        simp at hpos

/-- Witness for C9 at the key '3'. -/
theorem C9_menu_iteration_witness :
    (51 < 256) ∧ menuContinues exampleMenuState = true ∧
    (menuIteration exampleXfr exampleMenuState 51).2.filter isXfrCall =
      [Call.iso7816_xfr_block_TPDU_T0 testCommand3 7 2] :=
  ⟨by decide, by decide,
   (C9_menu_iteration exampleXfr exampleMenuState 51 (by decide) (by decide) []).1⟩

/-! ## The order of the driver calls in `main` -/

/-- A transfer is a call into the ISO7816 driver. -/
theorem isIso7816Call_of_isXfrCall (c : Call) (h : isXfrCall c = true) :
    isIso7816Call c = true := by
  cases c <;> simp_all [isXfrCall, isIso7816Call]

/-- A list without calls into the ISO7816 driver has no transfer. -/
theorem filter_xfr_nil_of_filter_iso_nil (l : List Call)
    (h : l.filter isIso7816Call = []) : l.filter isXfrCall = [] := by
  rw [List.filter_eq_nil_iff] at h ⊢
  intro c hc hx
  exact h c hc (isIso7816Call_of_isXfrCall c hx)

/-- The optional PMIC configuration makes no call into the ISO7816 driver. -/
theorem configurePmic_no_iso (b : Board) (ok : Bool) :
    (configurePmic b ok).filter isIso7816Call = [] := by
  unfold configurePmic
  cases b.CONFIG_HAVE_PMIC_ACT8945A <;> cases ok <;> simp [isIso7816Call]

/-- The configuration of the leds makes no call into the ISO7816 driver. -/
theorem configure_leds_no_iso : _configure_leds.filter isIso7816Call = [] := by decide

/-- The configuration of the buttons makes no call into the ISO7816 driver. -/
theorem configure_buttons_no_iso (button_pins : List Pin) :
    (_configure_buttons button_pins).filter isIso7816Call = [] := by
  rw [List.filter_eq_nil_iff]
  intro c hc
  simp only [_configure_buttons, List.mem_flatMap, List.mem_range, configureButton,
    List.mem_cons, List.mem_singleton, List.not_mem_nil, or_false] at hc
  obtain ⟨i, _, h | h | h | h | h⟩ := hc <;> subst h <;> simp [isIso7816Call]

/-- The only calls into the ISO7816 driver in an iteration of the menu are
transfers. -/
theorem menuIteration_iso_eq_xfr {σ : Type} (xfr : Xfr σ) (st : MenuState σ) (c : Nat) :
    (menuIteration xfr st c).2.filter isIso7816Call =
      (menuIteration xfr st c).2.filter isXfrCall := by
  apply List.filter_congr
  intro e he
  have hout : ∀ (m : List Nat) (n : Nat), e ∈ outputAnswer m n →
      isIso7816Call e = isXfrCall e := by
    intro m n hm
    unfold outputAnswer at hm
    split at hm
    · simp only [List.mem_append, List.mem_singleton, List.mem_flatMap, List.mem_range,
        List.mem_cons, List.not_mem_nil, or_false] at hm
      rcases hm with (h | ⟨i, _, h | h⟩) | h <;> subst h <;> rfl
    · simp at hm
  simp only [menuIteration, List.mem_append, List.mem_cons, List.mem_singleton,
    List.not_mem_nil, or_false] at he
  rcases he with ((h | h | h | h) | h) | h
  · subst h; rfl
  · subst h; rfl
  · subst h; rfl
  · subst h; rfl
  · rcases dispatchCommand_cases xfr st (toUint8 (((c % 256 : Nat) : Int) - 48)) with
      hd | ⟨cmd, _, hd⟩
    · rw [hd] at h; simp at h
    · rw [hd] at h
      simp only [sendCommand, printCommand, List.mem_append, List.mem_cons, List.mem_singleton,
        List.mem_map, List.not_mem_nil, or_false] at h
      rcases h with (h | ⟨x, _, h⟩) | h | h <;> subst h <;> rfl
  · exact hout _ _ h

/-- The only calls into the ISO7816 driver in the menu loop are transfers. -/
theorem menuLoop_iso_eq_xfr {σ : Type} (xfr : Xfr σ) (keys : List Nat) :
    ∀ st : MenuState σ, (menuLoop xfr st keys).2.1.filter isIso7816Call =
      (menuLoop xfr st keys).2.1.filter isXfrCall := by
  induction keys with
  | nil => intro st; rfl
  | cons c cs ih =>
    intro st
    unfold menuLoop
    split
    · simp only [List.filter_append, menuIteration_iso_eq_xfr, ih]
    · rfl

/-- The only calls into the ISO7816 driver in `_send_receive_commands` are
transfers. -/
theorem send_receive_iso_eq_xfr {σ : Type} (xfr : Xfr σ) (drv : σ) (keys : List Nat) :
    (_send_receive_commands xfr drv keys).2.1.filter isIso7816Call =
      (_send_receive_commands xfr drv keys).2.1.filter isXfrCall := by
  have hmenu : displayMenu.filter isIso7816Call = [] := by decide
  have hmenu2 : displayMenu.filter isXfrCall = [] := by decide
  simp only [_send_receive_commands, List.filter_append, hmenu, hmenu2, menuLoop_iso_eq_xfr]
  split <;> simp [isIso7816Call, isXfrCall]

/-- The writes and reads of `Atr` recorded in the trace are not calls into
the ISO7816 driver. -/
theorem atr_accesses_no_iso (l : List Nat) :
    (l.map Call.store_Atr).filter isIso7816Call = [] ∧
    (l.map Call.load_Atr).filter isIso7816Call = [] := by
  constructor <;>
  · rw [List.filter_eq_nil_iff]
    intro c hc
    simp only [List.mem_map] at hc
    obtain ⟨i, _, h⟩ := hc
    subst h
    simp [isIso7816Call]

/-- C2: in every execution of `main` the calls into the ISO7816 driver are, in
order, `iso7816_init`, `iso7816_warm_reset`, `iso7816_get_data_block_ATR`,
`iso7816_decode_ATR`, followed by the transfers `iso7816_xfr_block_TPDU_T0`
of the execution and by nothing else: each of the four is made exactly once,
in that order, and no transfer is made before them. -/
theorem C2_link_established_before_commands {σ : Type} (b : Board) (pmicOk : Bool)
    (card : List Nat) (xfr : Xfr σ) (drv : σ) (keys : List Nat) :
    (main b pmicOk card xfr drv keys).trace.filter isIso7816Call =
      [Call.iso7816_init (iso7816_opt b),
       Call.iso7816_warm_reset,
       Call.iso7816_get_data_block_ATR (iso7816_get_data_block_ATR card)
         (main b pmicOk card xfr drv keys).size,
       Call.iso7816_decode_ATR (main b pmicOk card xfr drv keys).Atr] ++
      (main b pmicOk card xfr drv keys).trace.filter isXfrCall := by
  have hp := configurePmic_no_iso b pmicOk
  have hl := configure_leds_no_iso
  have hb := configure_buttons_no_iso b.PINS_PUSHBUTTONS
  have hp2 := filter_xfr_nil_of_filter_iso_nil _ hp
  have hl2 := filter_xfr_nil_of_filter_iso_nil _ hl
  have hb2 := filter_xfr_nil_of_filter_iso_nil _ hb
  have hs := send_receive_iso_eq_xfr xfr drv keys
  have hw := (atr_accesses_no_iso (atrWriteIndices (iso7816_get_data_block_ATR card))).1
  have hr := (atr_accesses_no_iso (iso7816_decode_ATR (storeBlock
    (List.replicate MAX_ATR_SIZE 0) (iso7816_get_data_block_ATR card))).reads).2
  have hw2 := filter_xfr_nil_of_filter_iso_nil _ hw
  have hr2 := filter_xfr_nil_of_filter_iso_nil _ hr
  simp only [main, List.filter_append, hp, hl, hb, hp2, hl2, hb2, hs, hw, hr, hw2, hr2]
  split <;> simp [isIso7816Call, isXfrCall]

/-! ## The capture of the ATR -/

/-- The walk over the interface bytes does not depend on fuel beyond the
number of bytes: the fuel `atrExpectedLength` gives it is enough. -/
theorem atrInterfaceWalk_fuel (bytes : List Nat) (k : Nat) :
    ∀ (fuel pos y : Nat) (tck : Bool), bytes.length ≤ pos + fuel →
      atrInterfaceWalk (fuel + 1 + k) bytes pos y tck =
        atrInterfaceWalk (fuel + 1) bytes pos y tck := by
  intro fuel
  induction fuel with
  | zero =>
    intro pos y tck hlen
    have hnone : bytes[pos + y % 2 + y / 2 % 2 + y / 4 % 2]? = none := by
      apply List.getElem?_eq_none
      omega
    have hk : 0 + 1 + k = k + 1 := by omega
    rw [hk]
    simp only [atrInterfaceWalk, hnone]
  | succ f ih =>
    intro pos y tck hlen
    have hk : f + 1 + 1 + k = (f + 1 + k) + 1 := by omega
    rw [hk]
    rw [atrInterfaceWalk, atrInterfaceWalk]
    split
    · cases hget : bytes[pos + y % 2 + y / 2 % 2 + y / 4 % 2]? with
      | none => rfl
      | some td =>
        have hlt : pos + y % 2 + y / 2 % 2 + y / 4 % 2 < bytes.length := by
          rcases List.getElem?_eq_some_iff.mp hget with ⟨h, _⟩
          exact h
        exact ih _ _ _ (by omega)
    · rfl

/-- The capture loop never holds more bytes than the maximum. -/
theorem captureAtrLoop_length (maximum : Nat) (card : List Nat) :
    ∀ buf : List Nat, buf.length ≤ maximum →
      (captureAtrLoop maximum buf card).length ≤ maximum := by
  induction card with
  | nil => intro buf h; exact h
  | cons b rest ih =>
    intro buf h
    unfold captureAtrLoop
    split
    · exact h
    · split
      · exact h
      · apply ih
        simp only [List.length_append, List.length_singleton]
        omega

/-! ## The reads of the decoder -/

/-- Running a step after another ends where the second ends, or where the
first halted. -/
theorem finalReader_atrThen {α β : Type} (f : AtrStep α) (g : α → AtrStep β) (r : AtrReader) :
    (∃ e r1, f r = Except.error (e, r1) ∧ finalReader (atrThen f g r) = r1) ∨
    (∃ a r1, f r = Except.ok (a, r1) ∧ finalReader (atrThen f g r) = finalReader (g a r1)) := by
  unfold atrThen
  cases h : f r with
  | error e => exact Or.inl ⟨e.1, e.2, rfl, rfl⟩
  | ok x => exact Or.inr ⟨x.1, x.2, rfl, rfl⟩

/-- A step that gives a value without reading keeps the reader well formed. -/
theorem atrPure_keeps {α : Type} (raw : List Nat) (a : α) : StepKeeps raw (atrPure a) :=
  fun _ h => h

/-- A step that halts without reading keeps the reader well formed. -/
theorem atrFail_keeps {α : Type} (raw : List Nat) (e : AtrError) :
    StepKeeps raw (atrFail e : AtrStep α) :=
  fun _ h => h

/-- Two steps that keep the reader well formed do so in sequence. -/
theorem atrThen_keeps {α β : Type} (raw : List Nat) (f : AtrStep α) (g : α → AtrStep β)
    (hf : StepKeeps raw f) (hg : ∀ a, StepKeeps raw (g a)) : StepKeeps raw (atrThen f g) := by
  intro r hr
  have h1 := hf r hr
  rcases finalReader_atrThen f g r with ⟨e, r1, hfr, hfin⟩ | ⟨a, r1, hfr, hfin⟩
  · rw [hfin]
    rw [hfr] at h1
    exact h1
  · rw [hfin]
    rw [hfr] at h1
    exact hg a r1 h1

/-- Reading a byte records an index inside the bytes, the next in order. -/
theorem readAtrByte_keeps (raw : List Nat) : StepKeeps raw (readAtrByte raw) := by
  intro r hr
  unfold readAtrByte
  cases hget : raw[r.pos]? with
  | none => exact hr
  | some b =>
    have hlt : r.pos < raw.length := (List.getElem?_eq_some_iff.mp hget).1
    refine ⟨?_, ?_⟩
    · show r.reads ++ [r.pos] = List.range (r.pos + 1)
      rw [List.range_succ, hr.1]
    · show r.pos + 1 ≤ raw.length
      omega

/-- Reading an optional interface byte keeps the reader well formed. -/
theorem readIfPresent_keeps (raw : List Nat) (present : Bool) :
    StepKeeps raw (readIfPresent raw present) := by
  unfold readIfPresent
  split
  · exact atrThen_keeps raw _ _ (readAtrByte_keeps raw) (fun b => atrPure_keeps raw _)
  · exact atrPure_keeps raw _

/-- Reading an interface-byte group keeps the reader well formed. -/
theorem readGroup_keeps (raw : List Nat) (y : Nat) : StepKeeps raw (readGroup raw y) := by
  unfold readGroup
  refine atrThen_keeps raw _ _ (readIfPresent_keeps raw _) fun ta => ?_
  refine atrThen_keeps raw _ _ (readIfPresent_keeps raw _) fun tb => ?_
  refine atrThen_keeps raw _ _ (readIfPresent_keeps raw _) fun tc => ?_
  refine atrThen_keeps raw _ _ (readIfPresent_keeps raw _) fun td => ?_
  exact atrPure_keeps raw _

/-- Reading the chain of groups keeps the reader well formed. -/
theorem readGroups_keeps (raw : List Nat) (fuel : Nat) :
    ∀ (y : Nat) (tck : Bool), StepKeeps raw (readGroups raw fuel y tck) := by
  induction fuel with
  | zero => intro y tck; exact atrFail_keeps raw _
  | succ f ih =>
    intro y tck
    unfold readGroups
    refine atrThen_keeps raw _ _ (readGroup_keeps raw y) fun g => ?_
    cases g.td with
    | none => exact atrPure_keeps raw _
    | some td =>
      exact atrThen_keeps raw _ _ (ih _ _) (fun rest => atrPure_keeps raw _)

/-- Reading the historical bytes keeps the reader well formed. -/
theorem readHistorical_keeps (raw : List Nat) (k : Nat) :
    StepKeeps raw (readHistorical raw k) := by
  induction k with
  | zero => exact atrPure_keeps raw _
  | succ n ih =>
    unfold readHistorical
    refine atrThen_keeps raw _ _ (readAtrByte_keeps raw) fun b => ?_
    exact atrThen_keeps raw _ _ ih (fun bs => atrPure_keeps raw _)

/-- The check of TCK reads nothing. -/
theorem checkAtrXor_keeps (raw : List Nat) : StepKeeps raw checkAtrXor := by
  intro r hr
  unfold checkAtrXor
  split <;> exact hr

/-- A successful read of a byte advances the position by one, inside the
bytes. -/
theorem readAtrByte_pos (raw : List Nat) (r r1 : AtrReader) (b : Nat)
    (h : readAtrByte raw r = Except.ok (b, r1)) :
    r1.pos = r.pos + 1 ∧ r1.pos ≤ raw.length := by
  unfold readAtrByte at h
  cases hget : raw[r.pos]? with
  | none => simp [hget] at h
  | some v =>
    have hlt : r.pos < raw.length := (List.getElem?_eq_some_iff.mp hget).1
    simp only [hget, Except.ok.injEq, Prod.mk.injEq] at h
    obtain ⟨_, rfl⟩ := h
    exact ⟨rfl, hlt⟩

/-- A successful read of an optional byte does not move the position back,
and when a byte was read the position has advanced, inside the bytes. -/
theorem readIfPresent_pos (raw : List Nat) (present : Bool) (r r1 : AtrReader) (v : Option Nat)
    (h : readIfPresent raw present r = Except.ok (v, r1)) :
    r.pos ≤ r1.pos ∧ (∀ b, v = some b → r.pos < r1.pos ∧ r1.pos ≤ raw.length) := by
  unfold readIfPresent at h
  split at h
  · unfold atrThen at h
    cases hb : readAtrByte raw r with
    | error e => simp [hb] at h
    | ok x =>
      obtain ⟨b, r2⟩ := x
      have hp := readAtrByte_pos raw r r2 b hb
      simp only [hb, atrPure, Except.ok.injEq, Prod.mk.injEq] at h
      obtain ⟨_, rfl⟩ := h
      exact ⟨by omega, fun _ _ => ⟨by omega, hp.2⟩⟩
  · simp only [atrPure, Except.ok.injEq, Prod.mk.injEq] at h
    obtain ⟨rfl, rfl⟩ := h
    exact ⟨Nat.le_refl _, fun b hb => by simp at hb⟩

/-- A group that was read with a TD leaves the position advanced, inside the
bytes. -/
theorem readGroup_pos (raw : List Nat) (y : Nat) (r r1 : AtrReader) (g : AtrGroup) (td : Nat)
    (h : readGroup raw y r = Except.ok (g, r1)) (htd : g.td = some td) :
    r.pos < r1.pos ∧ r1.pos ≤ raw.length := by
  unfold readGroup at h
  unfold atrThen at h
  cases ha : readIfPresent raw (y % 2 == 1) r with
  | error e => simp [ha] at h
  | ok xa =>
    obtain ⟨ta, ra⟩ := xa
    simp only [ha] at h
    cases hb : readIfPresent raw (y / 2 % 2 == 1) ra with
    | error e => simp [hb] at h
    | ok xb =>
      obtain ⟨tb, rb⟩ := xb
      simp only [hb] at h
      cases hc : readIfPresent raw (y / 4 % 2 == 1) rb with
      | error e => simp [hc] at h
      | ok xc =>
        obtain ⟨tc, rc⟩ := xc
        simp only [hc] at h
        cases hd : readIfPresent raw (y / 8 % 2 == 1) rc with
        | error e => simp [hd] at h
        | ok xd =>
          obtain ⟨tdv, rd⟩ := xd
          simp only [hd, atrPure, Except.ok.injEq, Prod.mk.injEq] at h
          obtain ⟨rfl, rfl⟩ := h
          have pa := (readIfPresent_pos raw _ r ra ta ha).1
          have pb := (readIfPresent_pos raw _ ra rb tb hb).1
          have pc := (readIfPresent_pos raw _ rb rc tc hc).1
          have pd := (readIfPresent_pos raw _ rc _ tdv hd).2 td htd
          exact ⟨by omega, pd.2⟩

/-- The fuel of the chain of groups is not what ends it: once the fuel covers
the bytes left, more fuel gives the same result, so the fuel the decoder
gives it, one more than the number of bytes, never runs out. -/
theorem readGroups_fuel (raw : List Nat) (k : Nat) :
    ∀ (fuel y : Nat) (tck : Bool) (r : AtrReader), raw.length ≤ r.pos + fuel →
      readGroups raw (fuel + 1 + k) y tck r = readGroups raw (fuel + 1) y tck r := by
  intro fuel
  induction fuel with
  | zero =>
    intro y tck r hlen
    have hk : 0 + 1 + k = k + 1 := by omega
    rw [hk]
    unfold readGroups
    unfold atrThen
    cases hg : readGroup raw y r with
    | error e => rfl
    | ok x =>
      obtain ⟨g, r1⟩ := x
      cases htd : g.td with
      | none => simp [htd]
      | some td =>
        have hp := readGroup_pos raw y r r1 g td hg htd
        omega
  | succ f ih =>
    intro y tck r hlen
    have hk : f + 1 + 1 + k = (f + 1 + k) + 1 := by omega
    rw [hk]
    rw [readGroups, readGroups]
    unfold atrThen
    cases hg : readGroup raw y r with
    | error e => rfl
    | ok x =>
      obtain ⟨g, r1⟩ := x
      cases htd : g.td with
      | none => simp [htd]
      | some td =>
        have hp := readGroup_pos raw y r r1 g td hg htd
        simp only [htd]
        rw [ih _ _ r1 (by omega)]

/-- The whole decoding keeps the reader well formed. -/
theorem decodeAtrStep_keeps (raw : List Nat) : StepKeeps raw (decodeAtrStep raw) := by
  unfold decodeAtrStep
  refine atrThen_keeps raw _ _ (readAtrByte_keeps raw) fun ts => ?_
  split
  · refine atrThen_keeps raw _ _ (readAtrByte_keeps raw) fun t0 => ?_
    refine atrThen_keeps raw _ _ (readGroups_keeps raw _ _ _) fun gs => ?_
    refine atrThen_keeps raw _ _ (readHistorical_keeps raw _) fun hist => ?_
    split
    · refine atrThen_keeps raw _ _ (readAtrByte_keeps raw) fun tck => ?_
      exact atrThen_keeps raw _ _ (checkAtrXor_keeps raw) (fun _ => atrPure_keeps raw _)
    · exact atrPure_keeps raw _
  · exact atrFail_keeps raw _

/-- The decoder reads the bytes it is handed in order from index 0 and never
past their end, whatever they are and whatever the result. -/
theorem decode_reads_within (raw : List Nat) :
    ∃ n, n ≤ raw.length ∧ (iso7816_decode_ATR raw).reads = List.range n := by
  have h := decodeAtrStep_keeps raw { pos := 0, reads := [], seen := [] }
    ⟨rfl, Nat.zero_le _⟩
  exact ⟨_, h.2, h.1⟩

/-! ## The accesses to `Atr` in `main` -/

/-- The menu makes no access to `Atr`: an iteration consists of `printf`,
`console_get_char`, transfers and reads of `pMessage`. -/
theorem menuIteration_no_atr {σ : Type} (xfr : Xfr σ) (st : MenuState σ) (c : Nat) :
    (menuIteration xfr st c).2.filter isAtrAccess = [] := by
  rw [List.filter_eq_nil_iff]
  intro e he
  have hout : ∀ (m : List Nat) (n : Nat), e ∈ outputAnswer m n → ¬ isAtrAccess e = true := by
    intro m n hm
    unfold outputAnswer at hm
    split at hm
    · simp only [List.mem_append, List.mem_singleton, List.mem_flatMap, List.mem_range,
        List.mem_cons, List.not_mem_nil, or_false] at hm
      rcases hm with (h | ⟨i, _, h | h⟩) | h <;> subst h <;> simp [isAtrAccess]
    · simp at hm
  simp only [menuIteration, List.mem_append, List.mem_cons, List.mem_singleton,
    List.not_mem_nil, or_false] at he
  rcases he with ((h | h | h | h) | h) | h
  · subst h; simp [isAtrAccess]
  · subst h; simp [isAtrAccess]
  · subst h; simp [isAtrAccess]
  · subst h; simp [isAtrAccess]
  · rcases dispatchCommand_cases xfr st (toUint8 (((c % 256 : Nat) : Int) - 48)) with
      hd | ⟨cmd, _, hd⟩
    · rw [hd] at h; simp at h
    · rw [hd] at h
      simp only [sendCommand, printCommand, List.mem_append, List.mem_cons, List.mem_singleton,
        List.mem_map, List.not_mem_nil, or_false] at h
      rcases h with (h | ⟨x, _, h⟩) | h | h <;> subst h <;> simp [isAtrAccess]
  · exact hout _ _ h

/-- The menu loop makes no access to `Atr`. -/
theorem menuLoop_no_atr {σ : Type} (xfr : Xfr σ) (keys : List Nat) :
    ∀ st : MenuState σ, (menuLoop xfr st keys).2.1.filter isAtrAccess = [] := by
  induction keys with
  | nil => intro st; rfl
  | cons c cs ih =>
    intro st
    unfold menuLoop
    split
    · simp only [List.filter_append, menuIteration_no_atr, ih, List.append_nil]
    · rfl

/-- The function `_send_receive_commands` makes no access to `Atr`. -/
theorem send_receive_no_atr {σ : Type} (xfr : Xfr σ) (drv : σ) (keys : List Nat) :
    (_send_receive_commands xfr drv keys).2.1.filter isAtrAccess = [] := by
  have hmenu : displayMenu.filter isAtrAccess = [] := by decide
  simp only [_send_receive_commands, List.filter_append, hmenu, menuLoop_no_atr]
  split <;> simp [isAtrAccess]

/-- The accesses to `Atr` in the trace of `main` are the writes of the capture
followed by the reads of the decoder. -/
theorem main_atr_accesses {σ : Type} (b : Board) (pmicOk : Bool) (card : List Nat)
    (xfr : Xfr σ) (drv : σ) (keys : List Nat) :
    (main b pmicOk card xfr drv keys).trace.filter isAtrAccess =
      (atrWriteIndices (iso7816_get_data_block_ATR card)).map Call.store_Atr ++
      (main b pmicOk card xfr drv keys).decoded.reads.map Call.load_Atr := by
  have hp : (configurePmic b pmicOk).filter isAtrAccess = [] := by
    unfold configurePmic
    cases b.CONFIG_HAVE_PMIC_ACT8945A <;> cases pmicOk <;> simp [isAtrAccess]
  have hl : _configure_leds.filter isAtrAccess = [] := by decide
  have hb : (_configure_buttons b.PINS_PUSHBUTTONS).filter isAtrAccess = [] := by
    rw [List.filter_eq_nil_iff]
    intro c hc
    simp only [_configure_buttons, List.mem_flatMap, List.mem_range, configureButton,
      List.mem_cons, List.mem_singleton, List.not_mem_nil, or_false] at hc
    obtain ⟨i, _, h | h | h | h | h⟩ := hc <;> subst h <;> simp [isAtrAccess]
  have hs := send_receive_no_atr xfr drv keys
  have hw : ∀ l : List Nat, (l.map Call.store_Atr).filter isAtrAccess = l.map Call.store_Atr := by
    intro l
    rw [List.filter_eq_self]
    intro c hc
    simp only [List.mem_map] at hc
    obtain ⟨i, _, h⟩ := hc
    subst h
    rfl
  have hr : ∀ l : List Nat, (l.map Call.load_Atr).filter isAtrAccess = l.map Call.load_Atr := by
    intro l
    rw [List.filter_eq_self]
    intro c hc
    simp only [List.mem_map] at hc
    obtain ⟨i, _, h⟩ := hc
    subst h
    rfl
  simp only [main, List.filter_append, hp, hl, hb, hs, hw, hr]
  split <;> simp [isAtrAccess]

/-- C3: for every byte stream the card sends after the reset, the ATR that
`main` captures has at most `MAX_ATR_SIZE` = 55 bytes and `size` reports that
number; every write of the capture to `Atr` is at an index below `size`,
hence below 55; the buffer `Atr` handed to the decoder is still 55 bytes long
and starts with the captured bytes; and every read the decoder makes of `Atr`
is at an index below 55, whether the ATR is complete, truncated or malformed:
the decoder reads an initial segment of the buffer and halts at its end; the
bytes of the buffer from index `size` on are the zeros of the `memset`. -/
theorem C3_atr_within_buffer {σ : Type} (b : Board) (pmicOk : Bool) (card : List Nat)
    (xfr : Xfr σ) (drv : σ) (keys : List Nat) :
    MAX_ATR_SIZE = 55 ∧
    (iso7816_get_data_block_ATR card).length ≤ MAX_ATR_SIZE ∧
    (main b pmicOk card xfr drv keys).size = (iso7816_get_data_block_ATR card).length ∧
    (main b pmicOk card xfr drv keys).size ≤ MAX_ATR_SIZE ∧
    (∀ i, Call.store_Atr i ∈ (main b pmicOk card xfr drv keys).trace →
      i < (main b pmicOk card xfr drv keys).size ∧ i < MAX_ATR_SIZE) ∧
    (main b pmicOk card xfr drv keys).Atr.length = MAX_ATR_SIZE ∧
    (main b pmicOk card xfr drv keys).Atr.take (main b pmicOk card xfr drv keys).size =
      iso7816_get_data_block_ATR card ∧
    Call.iso7816_decode_ATR (main b pmicOk card xfr drv keys).Atr ∈
      (main b pmicOk card xfr drv keys).trace ∧
    (main b pmicOk card xfr drv keys).decoded =
      iso7816_decode_ATR (main b pmicOk card xfr drv keys).Atr ∧
    (∀ i, Call.load_Atr i ∈ (main b pmicOk card xfr drv keys).trace → i < MAX_ATR_SIZE) ∧
    (∃ n, n ≤ MAX_ATR_SIZE ∧
      (main b pmicOk card xfr drv keys).decoded.reads = List.range n) ∧
    (∀ i, (main b pmicOk card xfr drv keys).size ≤ i → i < MAX_ATR_SIZE →
      (main b pmicOk card xfr drv keys).Atr[i]? = some 0) := by
  have hlen : (iso7816_get_data_block_ATR card).length ≤ 55 :=
    captureAtrLoop_length atrBufferMaximum card [] (Nat.zero_le _)
  have hsize : (main b pmicOk card xfr drv keys).size =
      (iso7816_get_data_block_ATR card).length := by
    show (iso7816_get_data_block_ATR card).length % 256 = _
    omega
  have hAtr : (main b pmicOk card xfr drv keys).Atr =
      iso7816_get_data_block_ATR card ++
        (List.replicate MAX_ATR_SIZE 0).drop (iso7816_get_data_block_ATR card).length := rfl
  have hAtrLen : (main b pmicOk card xfr drv keys).Atr.length = MAX_ATR_SIZE := by
    rw [hAtr]
    simp only [List.length_append, List.length_drop, List.length_replicate, MAX_ATR_SIZE]
    omega
  have hdec : (main b pmicOk card xfr drv keys).decoded =
      iso7816_decode_ATR (main b pmicOk card xfr drv keys).Atr := rfl
  have hreads : ∃ n, n ≤ MAX_ATR_SIZE ∧
      (main b pmicOk card xfr drv keys).decoded.reads = List.range n := by
    obtain ⟨n, hn, hr⟩ := decode_reads_within (main b pmicOk card xfr drv keys).Atr
    rw [hAtrLen] at hn
    exact ⟨n, hn, by rw [hdec, hr]⟩
  have hacc := main_atr_accesses b pmicOk card xfr drv keys
  have hzero : ∀ i, (main b pmicOk card xfr drv keys).size ≤ i → i < MAX_ATR_SIZE →
      (main b pmicOk card xfr drv keys).Atr[i]? = some 0 := by
    intro i hi1 hi2
    rw [hsize] at hi1
    rw [hAtr, List.getElem?_append_right hi1, List.drop_replicate, List.getElem?_replicate]
    have h55 : MAX_ATR_SIZE = 55 := rfl
    rw [if_pos (by omega)]
  refine ⟨rfl, hlen, hsize, ?_, ?_, hAtrLen, ?_, ?_, hdec, ?_, hreads, hzero⟩
  · rw [hsize]; exact hlen
  · intro i hi
    have hm : Call.store_Atr i ∈ (main b pmicOk card xfr drv keys).trace.filter isAtrAccess :=
      List.mem_filter.mpr ⟨hi, rfl⟩
    rw [hacc] at hm
    simp only [List.mem_append, List.mem_map, atrWriteIndices, List.mem_range] at hm
    rw [hsize]
    rcases hm with ⟨a, ha, hEq⟩ | ⟨a, _, hEq⟩
    · cases hEq
      exact ⟨ha, Nat.lt_of_lt_of_le ha hlen⟩
    · cases hEq
  · rw [hsize, hAtr]
    simp
  · simp [main]
  · intro i hi
    have hm : Call.load_Atr i ∈ (main b pmicOk card xfr drv keys).trace.filter isAtrAccess :=
      List.mem_filter.mpr ⟨hi, rfl⟩
    rw [hacc] at hm
    obtain ⟨n, hn, hr⟩ := hreads
    simp only [List.mem_append, List.mem_map, hr, List.mem_range] at hm
    rcases hm with ⟨a, _, hEq⟩ | ⟨a, ha, hEq⟩
    · cases hEq
    · cases hEq
      exact Nat.lt_of_lt_of_le ha hn

/-- A capture that ends at the buffer maximum before the ATR does: the card
declares an ATR of 66 bytes, 55 bytes are stored, the capture is not complete,
and the decoder of `main` reads the 55 bytes of `Atr` and reports the
truncation. -/
theorem truncated_capture_is_reported :
    (main exampleBoard true truncatedCard exampleXfr () []).size = 55 ∧
    atrExpectedLength (iso7816_get_data_block_ATR truncatedCard) = some 66 ∧
    atrComplete (iso7816_get_data_block_ATR truncatedCard) = false ∧
    reportsTruncation (main exampleBoard true truncatedCard exampleXfr () []).decoded = true ∧
    (main exampleBoard true truncatedCard exampleXfr () []).decoded.reads = List.range 55 := by
  decide!

/-- A complete ATR of 11 bytes with TCK: the capture stops after it, and
the decoder of `main` reads exactly its 11 bytes and accepts it. -/
theorem complete_capture_is_decoded :
    iso7816_get_data_block_ATR completeCard = completeCard.take 11 ∧
    (main exampleBoard true completeCard exampleXfr () []).size = 11 ∧
    atrComplete (iso7816_get_data_block_ATR completeCard) = true ∧
    decodedOk (main exampleBoard true completeCard exampleXfr () []).decoded = true ∧
    (main exampleBoard true completeCard exampleXfr () []).decoded.reads = List.range 11 := by
  decide!

end UsartIso7816
